import Mathlib

/-!
Verification of the SiFiGAN generator modules
(`sifigan/models/generator.py`: `HiFiGANGenerator`, `SiFiGANGenerator`,
`SiFiGANDirectGenerator`).

The development shallowly embeds:
* the temporal-length arithmetic of `torch.nn.Conv1d` and
  `torch.nn.ConvTranspose1d` (dilation 1, the only dilation the
  up/down-sampling ladders use), specialised to the padding schemes the
  generators pass to those layers;
* the construction-time `assert` statements of the three `__init__`
  methods, as a sequential check returning `Except`;
* the forward-pass data flow of `HiFiGANGenerator.forward` (stage loop,
  sine-embedding fusion, quasi-periodic blocks, residual-block averaging),
  with the primitive layers abstracted as arbitrary functions, values
  modelled pointwise over `ℚ`;
* the weight-normalization bookkeeping (`apply_weight_norm`,
  `remove_weight_norm`, the caught `ValueError`), with the norm function
  kept abstract so the algebra is exact.
-/

/-- Output length of `torch.nn.ConvTranspose1d` with dilation 1:
`(L - 1) * stride - 2 * padding + kernel + output_padding`
(the torch formula `(L-1)*s - 2*p + d*(k-1) + op + 1` at `d = 1`). -/
def convTransposeLen (L s k p op : ℕ) : ℕ :=
  (L - 1) * s + k + op - 2 * p

/-- Output length of `torch.nn.Conv1d` with dilation 1:
`⌊(L + 2*padding - kernel) / stride⌋ + 1`
(the torch formula `⌊(L + 2*p - d*(k-1) - 1)/s⌋ + 1` at `d = 1`). -/
def convLen (L k p s : ℕ) : ℕ :=
  (L + 2 * p - k) / s + 1

/-- Padding of the upsampling transposed convolutions:
`upsample_scales[i] // 2 + upsample_scales[i] % 2` (generator.py line 105). -/
def upsamplePad (s : ℕ) : ℕ := s / 2 + s % 2

/-- Temporal length after one upsampling stage: `nn.ConvTranspose1d` with
kernel `2*s` (enforced by the constructor assert), stride `s`,
padding `s/2 + s%2`, output_padding `s % 2` (generator.py lines 100-108). -/
def upsampleOutLen (L s : ℕ) : ℕ :=
  convTransposeLen L s (2 * s) (upsamplePad s) (s % 2)

/-- Temporal length after the whole upsampling ladder: the stages are
applied in order (generator.py lines 201-202). -/
def ladderLen (L : ℕ) (scales : List ℕ) : ℕ :=
  scales.foldl upsampleOutLen L

/-- Padding of the sine-embedding downsampling convolutions:
`upsample_scales[i] - (upsample_kernel_sizes[i] % 2 == 0)`
(generator.py lines 166, 425, 712; Python booleans are 0/1 integers). -/
def downsamplePad (s k : ℕ) : ℕ :=
  s - (if k % 2 = 0 then 1 else 0)

/-- Temporal length after one sine-embedding downsampling convolution:
`nn.Conv1d` with kernel `k`, stride `s`, padding `downsamplePad s k`
(generator.py lines 161-168). -/
def downsampleOutLen (L s k : ℕ) : ℕ :=
  convLen L k (downsamplePad s k) s

/-- Temporal length after the initial sine-embedding convolution `self.emb`:
kernel `kernel_size`, stride 1, padding `(kernel_size - 1) // 2`
(generator.py lines 150-156). -/
def embConvLen (L k : ℕ) : ℕ :=
  convLen L k ((k - 1) / 2) 1

theorem upsampleOutLen_eq (L s : ℕ) (hL : 1 ≤ L) :
    upsampleOutLen L s = L * s := by
  obtain ⟨L', rfl⟩ : ∃ L', L = L' + 1 := ⟨L - 1, by omega⟩
  unfold upsampleOutLen convTransposeLen upsamplePad
  have h1 : (L' + 1 - 1) * s = L' * s := by norm_num
  have h2 : (L' + 1) * s = L' * s + s := by ring
  rw [h1, h2]
  generalize L' * s = t
  omega

theorem ladderLen_eq (scales : List ℕ) :
    ∀ L : ℕ, 1 ≤ L → (∀ s ∈ scales, 1 ≤ s) →
      ladderLen L scales = L * scales.prod := by
  induction scales with
  | nil => intro L _ _; simp [ladderLen]
  | cons s rest ih =>
    intro L hL hs
    have hs1 : 1 ≤ s := hs s (by simp)
    have hstep : upsampleOutLen L s = L * s := upsampleOutLen_eq L s hL
    have : ladderLen L (s :: rest) = ladderLen (upsampleOutLen L s) rest := by
      simp [ladderLen, List.foldl_cons]
    rw [this, hstep, ih (L * s) (Nat.one_le_iff_ne_zero.mpr (by positivity))
      (fun x hx => hs x (by simp [hx]))]
    simp [List.prod_cons]; ring

/-- C1: every upsampling stage's strided transposed convolution (kernel
`2*s`, padding `s/2 + s%2`, output_padding `s%2`) maps temporal length `L`
to exactly `L * s`, for even and odd `s` alike; consequently the full
ladder maps `L` to `L * prod(scales)`, and in particular scales
`(5, 4, 3, 2)` map length 100 to exactly 12000. -/
theorem upsample_ladder_exact_length :
    (∀ L s : ℕ, 1 ≤ L → upsampleOutLen L s = L * s) ∧
    (∀ (L : ℕ) (scales : List ℕ), 1 ≤ L → (∀ s ∈ scales, 1 ≤ s) →
      ladderLen L scales = L * scales.prod) ∧
    ladderLen 100 [5, 4, 3, 2] = 12000 := by
  refine ⟨fun L s hL => upsampleOutLen_eq L s hL,
    fun L scales hL hs => ladderLen_eq scales L hL hs, by decide⟩

/-- Witness for C1 at concrete inputs: an odd scale (5) and an even
scale (4), and a two-stage ladder. -/
theorem upsample_ladder_exact_length_witness :
    upsampleOutLen 7 5 = 35 ∧ upsampleOutLen 7 4 = 28 ∧
    ladderLen 3 [5, 4] = 60 := by
  refine ⟨upsample_ladder_exact_length.1 7 5 (by decide),
    upsample_ladder_exact_length.1 7 4 (by decide),
    upsample_ladder_exact_length.2.1 3 [5, 4] (by decide) (by decide)⟩

/-- The constructor arguments of `HiFiGANGenerator.__init__` that its
`assert` statements and channel arithmetic read (generator.py lines 28-48;
residual-block dilation lists are kept only as lists, their contents are
not consulted by any assert). -/
structure HiFiGANConfig where
  in_channels : ℕ
  out_channels : ℕ
  channels : ℕ
  kernel_size : ℕ
  upsample_scales : List ℕ
  upsample_kernel_sizes : List ℕ
  resblock_kernel_sizes : List ℕ
  resblock_dilations : List (List ℕ)
deriving DecidableEq

/-- The constructor arguments of `SiFiGANGenerator.__init__` /
`SiFiGANDirectGenerator.__init__` that their `assert` statements read
(generator.py lines 256-281 and 551-574; the two constructors run the
same three kinds of assert). -/
structure SiFiGANConfig where
  in_channels : ℕ
  out_channels : ℕ
  channels : ℕ
  kernel_size : ℕ
  upsample_scales : List ℕ
  upsample_kernel_sizes : List ℕ
deriving DecidableEq

/-- The per-stage assert `upsample_kernel_sizes[i] == 2 * upsample_scales[i]`
executed for every `i in range(len(upsample_kernel_sizes))`
(generator.py lines 96, 332, 619). -/
def checkUpsampleParams (scales kernels : List ℕ) : Bool :=
  (List.range kernels.length).all
    (fun i => kernels.getD i 0 == 2 * scales.getD i 0)

/-- The construction-time asserts of `HiFiGANGenerator.__init__`, in
source order (generator.py lines 75-77 and 96); a failed `assert` raises
`AssertionError`, modelled as `Except.error`. -/
def checkHiFiGANConfig (c : HiFiGANConfig) : Except String Unit :=
  if c.kernel_size % 2 ≠ 1 then
    .error "Kernel size must be odd number."
  else if c.upsample_scales.length ≠ c.upsample_kernel_sizes.length then
    .error "AssertionError: line 76"
  else if c.resblock_dilations.length ≠ c.resblock_kernel_sizes.length then
    .error "AssertionError: line 77"
  else if checkUpsampleParams c.upsample_scales c.upsample_kernel_sizes = false then
    .error "AssertionError: line 96"
  else
    .ok ()

/-- The construction-time asserts of `SiFiGANGenerator.__init__` and
`SiFiGANDirectGenerator.__init__`, in source order (generator.py lines
304-305, 332 and 597-598, 619). -/
def checkSiFiGANConfig (c : SiFiGANConfig) : Except String Unit :=
  if c.kernel_size % 2 ≠ 1 then
    .error "Kernel size must be odd number."
  else if c.upsample_scales.length ≠ c.upsample_kernel_sizes.length then
    .error "AssertionError: line 305"
  else if checkUpsampleParams c.upsample_scales c.upsample_kernel_sizes = false then
    .error "AssertionError: line 332"
  else
    .ok ()

theorem checkHiFiGANConfig_ok_iff (c : HiFiGANConfig) :
    checkHiFiGANConfig c = .ok () ↔
      (c.kernel_size % 2 = 1 ∧
       c.upsample_scales.length = c.upsample_kernel_sizes.length ∧
       c.resblock_dilations.length = c.resblock_kernel_sizes.length ∧
       checkUpsampleParams c.upsample_scales c.upsample_kernel_sizes = true) := by
  unfold checkHiFiGANConfig
  split_ifs with h1 h2 h3 h4 <;> simp_all

theorem checkSiFiGANConfig_ok_iff (c : SiFiGANConfig) :
    checkSiFiGANConfig c = .ok () ↔
      (c.kernel_size % 2 = 1 ∧
       c.upsample_scales.length = c.upsample_kernel_sizes.length ∧
       checkUpsampleParams c.upsample_scales c.upsample_kernel_sizes = true) := by
  unfold checkSiFiGANConfig
  split_ifs with h1 h2 h3 <;> simp_all

theorem checkUpsampleParams_spec (scales kernels : List ℕ)
    (h : checkUpsampleParams scales kernels = true) :
    ∀ i < kernels.length, kernels.getD i 0 = 2 * scales.getD i 0 := by
  intro i hi
  have := List.all_eq_true.mp h i (List.mem_range.mpr hi)
  simpa using this

/-- C7: for every generator variant, a scale/kernel-size list length
mismatch makes construction fail, and a kernel size differing from twice
its scale makes construction fail, before any forward call. -/
theorem construction_errors_on_bad_ladder_config :
    ∀ (c : HiFiGANConfig) (c2 : SiFiGANConfig),
      (c.upsample_scales.length ≠ c.upsample_kernel_sizes.length →
        checkHiFiGANConfig c ≠ .ok ()) ∧
      ((∃ i < c.upsample_kernel_sizes.length,
          c.upsample_kernel_sizes.getD i 0 ≠ 2 * c.upsample_scales.getD i 0) →
        checkHiFiGANConfig c ≠ .ok ()) ∧
      (c2.upsample_scales.length ≠ c2.upsample_kernel_sizes.length →
        checkSiFiGANConfig c2 ≠ .ok ()) ∧
      ((∃ i < c2.upsample_kernel_sizes.length,
          c2.upsample_kernel_sizes.getD i 0 ≠ 2 * c2.upsample_scales.getD i 0) →
        checkSiFiGANConfig c2 ≠ .ok ()) := by
  intro c c2
  refine ⟨fun h hok => ?_, fun h hok => ?_, fun h hok => ?_, fun h hok => ?_⟩
  · exact h ((checkHiFiGANConfig_ok_iff c).mp hok).2.1
  · obtain ⟨i, hi, hne⟩ := h
    exact hne (checkUpsampleParams_spec _ _
      ((checkHiFiGANConfig_ok_iff c).mp hok).2.2.2 i hi)
  · exact h ((checkSiFiGANConfig_ok_iff c2).mp hok).2.1
  · obtain ⟨i, hi, hne⟩ := h
    exact hne (checkUpsampleParams_spec _ _
      ((checkSiFiGANConfig_ok_iff c2).mp hok).2.2 i hi)

/-- Witness for C7: a HiFiGAN config with mismatched list lengths and a
SiFiGAN config with a kernel that is not twice its scale are both
rejected. -/
theorem construction_errors_on_bad_ladder_config_witness :
    checkHiFiGANConfig ⟨80, 1, 512, 7, [5, 4], [10, 8, 6], [3], [[1]]⟩ ≠ .ok () ∧
    checkSiFiGANConfig ⟨80, 1, 512, 7, [5, 4], [10, 9]⟩ ≠ .ok () := by
  constructor
  · exact (construction_errors_on_bad_ladder_config
      ⟨80, 1, 512, 7, [5, 4], [10, 8, 6], [3], [[1]]⟩
      ⟨80, 1, 512, 7, [5, 4], [10, 9]⟩).1 (by decide)
  · exact (construction_errors_on_bad_ladder_config
      ⟨80, 1, 512, 7, [5, 4], [10, 8, 6], [3], [[1]]⟩
      ⟨80, 1, 512, 7, [5, 4], [10, 9]⟩).2.2.2 ⟨1, by decide, by decide⟩

/-- C2 counterexample: at scale 2 with the (even) kernel 4 — exactly the
shape every valid config produces, since kernels are forced to `2*scale` —
the code's padding is `2 - 1 = 1`, not the `scale = 2` the claim asserts
for even kernels. -/
theorem downsample_padding_claim_false_at_2_4 :
    downsamplePad 2 4 ≠ 2 := by decide

/-- C2 amended: the sine-embedding downsampling convolution at scale `s`
with kernel `k` uses padding `s - 1` when `k` is even and padding `s` when
`k` is odd (the claim had the two parities swapped). -/
theorem downsample_padding_parity :
    ∀ s k : ℕ,
      (k % 2 = 0 → downsamplePad s k = s - 1) ∧
      (k % 2 = 1 → downsamplePad s k = s) := by
  intro s k
  constructor
  · intro h; simp [downsamplePad, h]
  · intro h; simp [downsamplePad, h]

/-- Witness for C2 (amended) at concrete inputs: scale 3 with even
kernel 6 and with odd kernel 5. -/
theorem downsample_padding_parity_witness :
    downsamplePad 3 6 = 2 ∧ downsamplePad 3 5 = 3 :=
  ⟨(downsample_padding_parity 3 6).1 (by decide),
   (downsample_padding_parity 3 5).2 (by decide)⟩

/-- C3 counterexample: `channels = 500` is not divisible by
`2^4 = 16` for the four-stage ladder `(5, 4, 3, 2)`, yet every
construction-time assert passes — `HiFiGANGenerator.__init__` never
checks divisibility (Python's `channels // (2 ** i)` floors silently). -/
theorem construction_accepts_indivisible_channels :
    (500 % 2 ^ 4 ≠ 0) ∧
    checkHiFiGANConfig ⟨80, 1, 500, 7, [5, 4, 3, 2], [10, 8, 6, 4], [3, 7, 11],
      [[1, 3, 5], [1, 3, 5], [1, 3, 5]]⟩ = .ok () := by
  constructor
  · decide
  · rfl

/-- C3 amended: no generator constructor validates divisibility of the
base channel count — the construction-time checks are entirely
independent of the `channels` argument, for every variant. -/
theorem construction_checks_ignore_channels :
    ∀ (c : HiFiGANConfig) (c2 : SiFiGANConfig) (m : ℕ),
      checkHiFiGANConfig { c with channels := m } = checkHiFiGANConfig c ∧
      checkSiFiGANConfig { c2 with channels := m } = checkSiFiGANConfig c2 := by
  intro c c2 m
  exact ⟨rfl, rfl⟩

/-- A constructed `HiFiGANGenerator`, with values modelled pointwise over
`ℚ` and every primitive layer abstracted as a function (the spec treats the
primitive layers as external black boxes). Fields mirror the module
attributes set in `__init__`: a quasi-periodic block takes the stage
feature and the stage's dilation-factor tensor `d[i]`
(generator.py lines 80-171). -/
structure HiFiGANModel where
  use_sine_embs : Bool
  use_qp_resblocks : Bool
  num_upsamples : ℕ
  num_blocks : ℕ
  input_conv : ℚ → ℚ
  emb : ℚ → ℚ
  downsamples : List (ℚ → ℚ)
  upsamples : List (ℚ → ℚ)
  qp_blocks : List (ℚ → ℚ → ℚ)
  blocks : List (ℚ → ℚ)
  output_conv : ℚ → ℚ

/-- The sine-embedding list built by `HiFiGANGenerator.forward` when
`use_sine_embs` holds: `embs = [emb(x)]`, then
`for i in range(num_upsamples - 1): x = downsamples[i](x); embs += [x]`
(generator.py lines 194-199). -/
def computeEmbs (g : HiFiGANModel) (x : ℚ) : List ℚ :=
  ((List.range (g.num_upsamples - 1)).foldl
    (fun (p : List ℚ × ℚ) i =>
      let x2 := (g.downsamples.getD i (fun y => y)) p.2
      (p.1 ++ [x2], x2))
    ([g.emb x], g.emb x)).1

/-- The residual-block group of stage `i`:
`cs = 0.0; for j in range(num_blocks): cs += blocks[i * num_blocks + j](c);
c = cs / num_blocks` (generator.py lines 207-210). -/
def stageResOut (blocks : List (ℚ → ℚ)) (nb i : ℕ) (c : ℚ) : ℚ :=
  ((List.range nb).foldl
    (fun cs j => cs + (blocks.getD (i * nb + j) (fun y => y)) c) 0) / nb

/-- One iteration of the upsampling loop of `HiFiGANGenerator.forward`:
upsample, optionally add the sine embedding `embs[-i-1]`, optionally apply
the quasi-periodic block with `d[i]`, then the averaged residual-block
group (generator.py lines 201-210). -/
def hifiganStage (g : HiFiGANModel) (embs : List ℚ) (d : List ℚ)
    (c : ℚ) (i : ℕ) : ℚ :=
  let c1 := (g.upsamples.getD i (fun y => y)) c
  let c2 := if g.use_sine_embs then c1 + embs.getD (embs.length - 1 - i) 0 else c1
  let c3 := if g.use_qp_resblocks then
      (g.qp_blocks.getD i (fun y _ => y)) c2 (d.getD i 0)
    else c2
  stageResOut g.blocks g.num_blocks i c3

/-- `HiFiGANGenerator.forward` (generator.py lines 180-213): input
convolution, optional sine-embedding cascade, the upsampling loop, output
convolution.  When `use_sine_embs` is false no embedding list is built. -/
def hifiganForward (g : HiFiGANModel) (x c : ℚ) (d : List ℚ) : ℚ :=
  let c0 := g.input_conv c
  let embs := if g.use_sine_embs then computeEmbs g x else []
  g.output_conv ((List.range g.num_upsamples).foldl (hifiganStage g embs d) c0)

theorem foldl_add_eq_sum (l : List ℕ) (f : ℕ → ℚ) :
    ∀ a : ℚ, l.foldl (fun cs j => cs + f j) a = a + (l.map f).sum := by
  induction l with
  | nil => intro a; simp
  | cons x xs ih => intro a; simp [ih]; ring

theorem stageResOut_foldl_eq_sum (blocks : List (ℚ → ℚ)) (nb i : ℕ) (c : ℚ) :
    stageResOut blocks nb i c =
      (((List.range nb).map
        (fun j => (blocks.getD (i * nb + j) (fun y => y)) c)).sum) / nb := by
  unfold stageResOut
  rw [foldl_add_eq_sum]
  simp

/-- C4: each stage's residual-block group output is the arithmetic mean of
its blocks' outputs on the stage input (sum divided by block count); a
single-block group returns that block's output, and a group of `n`
identical blocks returns the shared block's output. -/
theorem resblock_group_is_mean :
    ∀ (blocks : List (ℚ → ℚ)) (nb i : ℕ) (c : ℚ) (b : ℚ → ℚ) (n : ℕ),
      (stageResOut blocks nb i c =
        (((List.range nb).map
          (fun j => (blocks.getD (i * nb + j) (fun y => y)) c)).sum) / nb) ∧
      stageResOut [b] 1 0 c = b c ∧
      (1 ≤ n → stageResOut (List.replicate n b) n 0 c = b c) := by
  intro blocks nb i c b n
  refine ⟨stageResOut_foldl_eq_sum blocks nb i c, ?_, ?_⟩
  · rw [stageResOut_foldl_eq_sum]
    simp [List.range_succ]
  · intro hn
    rw [stageResOut_foldl_eq_sum]
    have hmap : (List.range n).map
        (fun j => ((List.replicate n b).getD (0 * n + j) (fun y => y)) c) =
        (List.range n).map (fun _ => b c) := by
      apply List.map_congr_left
      intro j hj
      have hj2 : j < n := List.mem_range.mp hj
      simp [List.getD, List.getElem?_replicate, hj2]
    rw [hmap]
    have hsum : ((List.range n).map (fun _ => b c)).sum = (n : ℚ) * b c := by
      rw [List.map_const', List.sum_replicate]
      simp [nsmul_eq_mul]
    rw [hsum]
    have hn0 : (n : ℚ) ≠ 0 := by
      exact_mod_cast Nat.one_le_iff_ne_zero.mp hn
    field_simp

/-- Witness for C4 at concrete inputs: a three-fold replicate of the
block `y ↦ y + 1` at input 2. -/
theorem resblock_group_is_mean_witness :
    stageResOut (List.replicate 3 (fun y => y + 1)) 3 0 2 = (2 : ℚ) + 1 :=
  (resblock_group_is_mean [] 0 0 2 (fun y => y + 1) 3).2.2 (by decide)

theorem hifiganStage_no_flags (g : HiFiGANModel)
    (h1 : g.use_sine_embs = false) (h2 : g.use_qp_resblocks = false)
    (embs embs2 : List ℚ) (d d2 : List ℚ) (c : ℚ) (i : ℕ) :
    hifiganStage g embs d c i = hifiganStage g embs2 d2 c i := by
  simp [hifiganStage, h1, h2]

/-- C10: with `use_sine_embs = False` and `use_qp_resblocks = False`,
`HiFiGANGenerator.forward` depends only on the conditioning feature `c`
(and the weights): two calls with the same `c` but different excitation
signals `x` and different dilation-factor lists `d` return identical
outputs, even though `x` remains a positional argument. -/
theorem forward_ignores_excitation_without_flags :
    ∀ (g : HiFiGANModel) (x x2 c : ℚ) (d d2 : List ℚ),
      g.use_sine_embs = false → g.use_qp_resblocks = false →
      hifiganForward g x c d = hifiganForward g x2 c d2 := by
  intro g x x2 c d d2 h1 h2
  unfold hifiganForward
  simp only [h1, if_false]
  congr 1
  apply List.foldl_ext
  intro a i _
  exact hifiganStage_no_flags g h1 h2 [] [] d d2 a i

/-- Witness for C10 at a concrete model (identity layers, two stages,
one block) with different `x` and `d` on both sides. -/
theorem forward_ignores_excitation_without_flags_witness :
    hifiganForward
      ⟨false, false, 2, 1, fun y => y, fun y => y, [], [fun y => y, fun y => y],
        [], [fun y => y, fun y => y], fun y => y⟩ 1 2 [] =
    hifiganForward
      ⟨false, false, 2, 1, fun y => y, fun y => y, [], [fun y => y, fun y => y],
        [], [fun y => y, fun y => y], fun y => y⟩ 5 2 [7] :=
  forward_ignores_excitation_without_flags
    ⟨false, false, 2, 1, fun y => y, fun y => y, [], [fun y => y, fun y => y],
      [], [fun y => y, fun y => y], fun y => y⟩ 1 5 2 [] [7] rfl rfl

/-- The parts of a constructed `SiFiGANGenerator` that the filter
network's upsampling dispatch reads: the sharing flag fixed at
construction and the two upsampling-stage lists (`sn["upsamples"]`,
`fn["upsamples"]`), each stage abstracted as a function
(generator.py lines 316, 327-361). -/
structure SiFiGANModel where
  share_upsamples : Bool
  sn_upsamples : List (ℚ → ℚ)
  fn_upsamples : List (ℚ → ℚ)

/-- The source network's upsampling stage `i` as invoked by
`SiFiGANGenerator.forward`: `self.sn["upsamples"][i](e)`
(generator.py line 483). -/
def sourceUpsampleApply (g : SiFiGANModel) (i : ℕ) (e : ℚ) : ℚ :=
  (g.sn_upsamples.getD i (fun y => y)) e

/-- The filter network's upsampling stage `i` as invoked by
`SiFiGANGenerator.forward`: `self.sn["upsamples"][i](c)` when
`share_upsamples` is set, otherwise `self.fn["upsamples"][i](c)`
(generator.py lines 498-501). -/
def filterUpsampleApply (g : SiFiGANModel) (i : ℕ) (c : ℚ) : ℚ :=
  if g.share_upsamples then (g.sn_upsamples.getD i (fun y => y)) c
  else (g.fn_upsamples.getD i (fun y => y)) c

/-- C6: with `share_upsamples = True`, the filter network's upsampling
stage `i` applied to any input produces exactly the source network's
stage-`i` output on that input — the dispatch selects the very same
`sn["upsamples"][i]` module, so the weights are the same tensors. -/
theorem shared_upsamples_identical :
    ∀ (g : SiFiGANModel), g.share_upsamples = true →
      ∀ (i : ℕ) (v : ℚ), filterUpsampleApply g i v = sourceUpsampleApply g i v := by
  intro g h i v
  simp [filterUpsampleApply, sourceUpsampleApply, h]

/-- Witness for C6 at a concrete model whose source and filter stage
lists differ pointwise, so the equality is forced by the dispatch. -/
theorem shared_upsamples_identical_witness :
    filterUpsampleApply ⟨true, [fun y => y + 1], [fun y => y + 2]⟩ 0 5 =
      sourceUpsampleApply ⟨true, [fun y => y + 1], [fun y => y + 2]⟩ 0 5 :=
  shared_upsamples_identical ⟨true, [fun y => y + 1], [fun y => y + 2]⟩ rfl 0 5

/-- A convolution layer's weight state under the weight-normalization
reparameterization: `wn = some (g, v)` models the presence of the
`weight_g` / `weight_v` decomposition installed by
`torch.nn.utils.weight_norm`; `wn = none` models a plain layer.  Weights
are flat lists of exact scalars. -/
structure WNLayer where
  weight : List ℚ
  wn : Option (ℚ × List ℚ)
deriving DecidableEq

/-- `torch.nn.utils.weight_norm` on a plain layer: store
`g = ‖weight‖` and `v = weight`, leaving the effective weight
`g * v / ‖v‖` unchanged.  The norm is an abstract function so the
statement covers exact arithmetic for any choice of norm
(`HiFiGANGenerator.apply_weight_norm`, generator.py lines 242-250). -/
def torchApplyWeightNorm (nrm : List ℚ → ℚ) (l : WNLayer) : WNLayer :=
  { weight := l.weight, wn := some (nrm l.weight, l.weight) }

/-- `torch.nn.utils.remove_weight_norm`: raises `ValueError` when the
layer carries no weight-norm decomposition, otherwise recomputes the
plain weight `g * v / ‖v‖` and drops the decomposition. -/
def torchRemoveWeightNorm (nrm : List ℚ → ℚ) (l : WNLayer) :
    Except String WNLayer :=
  match l.wn with
  | none => .error "ValueError"
  | some (g, v) => .ok { weight := v.map (fun w => g * w / nrm v), wn := none }

/-- The `_remove_weight_norm` closure of
`HiFiGANGenerator.remove_weight_norm` (generator.py lines 230-240): the
`ValueError` from torch is caught and the layer is returned untouched. -/
def removeWeightNormSafe (nrm : List ℚ → ℚ) (l : WNLayer) : WNLayer :=
  match torchRemoveWeightNorm nrm l with
  | .error _ => l
  | .ok l2 => l2

/-- C8: calling `remove_weight_norm` on layers that never had weight
normalization applied is a recoverable no-op — the underlying torch call
raises `ValueError`, the wrapper catches it, and every layer (hence a
whole generator's layer list, as traversed by `self.apply`) is returned
with its weights unchanged. -/
theorem remove_weight_norm_noop_without_norm :
    ∀ (nrm : List ℚ → ℚ) (l : WNLayer) (ls : List WNLayer),
      (l.wn = none →
        (∃ e, torchRemoveWeightNorm nrm l = .error e) ∧
        removeWeightNormSafe nrm l = l) ∧
      ((∀ m ∈ ls, m.wn = none) → ls.map (removeWeightNormSafe nrm) = ls) := by
  intro nrm l ls
  constructor
  · intro h
    refine ⟨⟨"ValueError", ?_⟩, ?_⟩
    · simp [torchRemoveWeightNorm, h]
    · simp [removeWeightNormSafe, torchRemoveWeightNorm, h]
  · intro h
    induction ls with
    | nil => simp
    | cons m ms ih =>
      have hm : m.wn = none := h m (by simp)
      simp only [List.map_cons]
      rw [ih (fun u hu => h u (by simp [hu]))]
      simp [removeWeightNormSafe, torchRemoveWeightNorm, hm]

/-- Witness for C8 at a concrete two-layer generator with no weight
norm installed. -/
theorem remove_weight_norm_noop_without_norm_witness :
    removeWeightNormSafe (fun w => w.sum) ⟨[1, 2], none⟩ = ⟨[1, 2], none⟩ ∧
    [(⟨[1, 2], none⟩ : WNLayer), ⟨[3], none⟩].map
      (removeWeightNormSafe (fun w => w.sum)) =
      [(⟨[1, 2], none⟩ : WNLayer), ⟨[3], none⟩] :=
  ⟨((remove_weight_norm_noop_without_norm (fun w => w.sum)
      ⟨[1, 2], none⟩ []).1 rfl).2,
   (remove_weight_norm_noop_without_norm (fun w => w.sum)
      ⟨[1, 2], none⟩ [⟨[1, 2], none⟩, ⟨[3], none⟩]).2 (by decide)⟩

/-- C9: `apply_weight_norm` followed by `remove_weight_norm` reproduces
the layer's original plain weight tensor exactly over exact arithmetic:
the stored magnitude is `g = ‖w‖` and the direction is `v = w`, so the
removal computes `g * v / ‖v‖ = w` whenever `‖w‖ ≠ 0`, for any norm
function. -/
theorem weight_norm_roundtrip :
    ∀ (nrm : List ℚ → ℚ) (l : WNLayer), nrm l.weight ≠ 0 →
      removeWeightNormSafe nrm (torchApplyWeightNorm nrm l) =
        { weight := l.weight, wn := none } := by
  intro nrm l h
  simp only [removeWeightNormSafe, torchRemoveWeightNorm, torchApplyWeightNorm]
  congr 1
  have : ∀ w : ℚ, nrm l.weight * w / nrm l.weight = w := by
    intro w
    rw [mul_comm, mul_div_assoc, div_self h, mul_one]
  calc l.weight.map (fun w => nrm l.weight * w / nrm l.weight)
      = l.weight.map id := List.map_congr_left (fun w _ => this w)
    _ = l.weight := List.map_id l.weight

/-- Witness for C9 at a concrete layer and norm with nonzero value. -/
theorem weight_norm_roundtrip_witness :
    removeWeightNormSafe (fun w => w.sum)
      (torchApplyWeightNorm (fun w => w.sum) ⟨[1, 2], none⟩) =
      ⟨[1, 2], none⟩ :=
  weight_norm_roundtrip (fun w => w.sum) ⟨[1, 2], none⟩ (by norm_num)

/-- Temporal lengths of the sine-embedding list `embs` built by the
forward passes: the list starts at the `emb`-convolution output length and
each further entry applies one downsampling convolution, given as
(scale, kernel) pairs in application order (generator.py lines 194-199,
476-480). -/
def embLens (L : ℕ) : List (ℕ × ℕ) → List ℕ
  | [] => [L]
  | (s, k) :: rest => L :: embLens (downsampleOutLen L s k) rest

/-- The (scale, kernel) pairs of the downsampling convolutions in the
order the forward pass applies them: `self.downsamples` is built for
`i in reversed(range(num_upsamples))` (generator.py lines 157-171) and the
forward loop applies entries `0 .. num_upsamples - 2`, i.e. the pairs of
stages `num_upsamples - 1` down to `1`. -/
def dsStages (scales kernels : List ℕ) : List (ℕ × ℕ) :=
  ((scales.zip kernels).drop 1).reverse

/-- Temporal lengths of the full sine-embedding list for an excitation
signal of length `xLen`: initial embedding convolution with the
generator's `kernel_size`, then the applied downsampling cascade. -/
def sineEmbLens (xLen kernel : ℕ) (scales kernels : List ℕ) : List ℕ :=
  embLens (embConvLen xLen kernel) (dsStages scales kernels)

/-- Shape compatibility of the fusion `c = c + embs[-i-1]`
(generator.py lines 203-204, 483): for an excitation of length
`T * prod(scales)` (the claimed final output length), the embedding used
at upsampling stage `i`, namely entry `num_upsamples - 1 - i` of `embs`,
has exactly the temporal length the ladder has after stage `i`. -/
def sineEmbAligned (T kernel : ℕ) (scales kernels : List ℕ) : Prop :=
  ∀ i ∈ List.range scales.length,
    (sineEmbLens (T * scales.prod) kernel scales kernels).getD
      (scales.length - 1 - i) 0 = ladderLen T (scales.take (i + 1))

theorem embConvLen_odd (L k : ℕ) (hk : k % 2 = 1) (hL : 1 ≤ L) :
    embConvLen L k = L := by
  unfold embConvLen convLen
  omega

theorem downsampleOutLen_exact (s M : ℕ) (hs : 2 ≤ s) (hM : 1 ≤ M) :
    downsampleOutLen (M * s) s (2 * s) = M := by
  obtain ⟨M', rfl⟩ : ∃ M', M = M' + 1 := ⟨M - 1, by omega⟩
  have hpad : downsamplePad s (2 * s) = s - 1 := by
    simp [downsamplePad, Nat.mul_mod_right]
  unfold downsampleOutLen convLen
  rw [hpad]
  have hnum : (M' + 1) * s + 2 * (s - 1) - 2 * s = s * M' + (s - 2) := by
    have e1 : (M' + 1) * s = s * M' + s := by ring
    rw [e1]
    generalize s * M' = t
    omega
  rw [hnum, Nat.mul_add_div (by omega : 0 < s),
    Nat.div_eq_of_lt (by omega : s - 2 < s)]

theorem zip_map_self (f : ℕ → ℕ) :
    ∀ l : List ℕ, l.zip (l.map f) = l.map (fun a => (a, f a))
  | [] => rfl
  | a :: l => by simp [zip_map_self f l]

theorem embLens_getD (rs : List ℕ) :
    ∀ (M j : ℕ), 1 ≤ M → (∀ s ∈ rs, 2 ≤ s) → j ≤ rs.length →
      (embLens (M * rs.prod) (rs.map (fun s => (s, 2 * s)))).getD j 0 =
        M * (rs.drop j).prod := by
  induction rs with
  | nil =>
    intro M j hM _ hj
    obtain rfl : j = 0 := by simpa using hj
    simp [embLens]
  | cons s rest ih =>
    intro M j hM hs hj
    have hs2 : 2 ≤ s := hs s (by simp)
    have hrest : ∀ x ∈ rest, 2 ≤ x := fun x hx => hs x (by simp [hx])
    cases j with
    | zero => simp [embLens]
    | succ j' =>
      have hrw : M * (s :: rest).prod = M * rest.prod * s := by
        simp [List.prod_cons]; ring
      have hpos : 1 ≤ M * rest.prod := by
        have : 0 < rest.prod :=
          List.prod_pos (fun a ha => by have := hrest a ha; omega)
        have : 0 < M * rest.prod := by positivity
        omega
      simp only [List.map_cons, embLens, List.getD_cons_succ]
      rw [hrw, downsampleOutLen_exact s (M * rest.prod) hs2 hpos,
        List.drop_succ_cons]
      exact ih M j' hM hrest (by simpa using Nat.succ_le_succ_iff.mp hj)

/-- C5 counterexample: the two-stage configuration with scales `(2, 1)`
and kernels `(4, 2)` passes every construction-time check (kernels equal
twice their scales), yet for input feature length 3 the downsampled
sine embedding fused at stage 0 has length 5 while the upsampled feature
has length 6 — the elementwise addition is not shape-compatible. -/
theorem sine_embedding_alignment_fails_at_scale_one :
    checkHiFiGANConfig ⟨80, 1, 512, 7, [2, 1], [4, 2], [3], [[1]]⟩ = .ok () ∧
    ¬ sineEmbAligned 3 7 [2, 1] [4, 2] := by
  constructor
  · rfl
  · intro h
    exact absurd (h 0 (by decide)) (by decide)

/-- C5 amended: for every stage configuration whose kernels equal twice
their scales and whose scales are all at least 2 (a scale of 1, though
accepted by the constructor, breaks the cascade), and every excitation
signal of length `T * prod(scales)`, each sine embedding's temporal
length exactly matches the input of the upsampling-stage fusion it is
added to, so every elementwise addition is shape-compatible. -/
theorem sine_embedding_alignment :
    ∀ (T kernel : ℕ) (scales kernels : List ℕ),
      1 ≤ T → kernel % 2 = 1 →
      kernels = scales.map (fun s => 2 * s) →
      (∀ s ∈ scales, 2 ≤ s) →
      sineEmbAligned T kernel scales kernels := by
  intro T kernel scales kernels hT hk hker hs
  intro i hi
  have hi2 : i < scales.length := List.mem_range.mp hi
  obtain ⟨s0, tail, rfl⟩ : ∃ s0 tail, scales = s0 :: tail := by
    cases scales with
    | nil => simp at hi2
    | cons a l => exact ⟨a, l, rfl⟩
  have hs0 : 2 ≤ s0 := hs s0 (by simp)
  have htail : ∀ x ∈ tail, 2 ≤ x := fun x hx => hs x (by simp [hx])
  have hprodpos : 0 < (s0 :: tail).prod :=
    List.prod_pos (fun a ha => by have := hs a ha; omega)
  -- the initial embedding convolution preserves the excitation length
  have hemb : embConvLen (T * (s0 :: tail).prod) kernel =
      T * (s0 :: tail).prod :=
    embConvLen_odd _ kernel hk (Nat.mul_pos (by omega) hprodpos)
  -- the applied downsampling pairs are the reversed tail with doubled kernels
  have hpairs : dsStages (s0 :: tail) kernels =
      (tail.reverse).map (fun s => (s, 2 * s)) := by
    rw [hker]
    unfold dsStages
    rw [zip_map_self]
    simp
  -- rewrite the cascade start as (T * s0) * prod(reversed tail)
  have hstart : T * (s0 :: tail).prod = (T * s0) * (tail.reverse).prod := by
    rw [List.prod_reverse]
    simp [List.prod_cons]; ring
  unfold sineEmbLens
  rw [hemb, hpairs, hstart]
  have hlen : (s0 :: tail).length - 1 - i = tail.reverse.length - i := by
    simp
  rw [hlen, embLens_getD tail.reverse (T * s0) (tail.reverse.length - i)
    (Nat.mul_pos (by omega) (by omega))
    (fun x hx => htail x (List.mem_reverse.mp hx))
    (by omega)]
  -- the dropped reversed tail is the reversed taken prefix
  have hdrop : tail.reverse.drop (tail.reverse.length - i) =
      (tail.take i).reverse := by
    rw [List.length_reverse, ← List.reverse_take]
  rw [hdrop, List.prod_reverse]
  -- compare with the ladder length after stage i
  have hlad : ladderLen T ((s0 :: tail).take (i + 1)) =
      T * ((s0 :: tail).take (i + 1)).prod := by
    refine ladderLen_eq _ T hT (fun x hx => ?_)
    have : x ∈ (s0 :: tail) := List.mem_of_mem_take hx
    have := hs x this
    omega
  rw [hlad, List.take_succ_cons, List.prod_cons]
  ring

/-- Witness for C5 (amended) at the concrete default configuration:
scales `(5, 4, 3, 2)`, kernels `(10, 8, 6, 4)`, `kernel_size = 7`,
feature length 100. -/
theorem sine_embedding_alignment_witness :
    sineEmbAligned 100 7 [5, 4, 3, 2] [10, 8, 6, 4] :=
  sine_embedding_alignment 100 7 [5, 4, 3, 2] [10, 8, 6, 4]
    (by decide) (by decide) (by decide) (by decide)
